import Mathlib

/-!
Verification of the OSA backend event read path.

Shallow embedding of the repository's Python source:
  - `app/models/constants.py`      : status constants
  - `app/models/event_model.py`    : ORM row types (datetimes modelled as `Int`
    timestamps, JSON objects as association lists)
  - `app/repositories/event_repository.py` : the two read queries over an
    in-memory table (`List Event`)
  - `app/services/event_service.py`: locale resolution and DTO assembly
  - `app/schemas/event_schema.py`  : display DTOs

The SQL `ORDER BY` is modelled with `List.mergeSort`; the `NULL` placement of
`published_at DESC` (nulls last, MySQL semantics) is made explicit in
`publishedLe`.
-/

namespace OSABackend

/-- `EventStatus.DRAFT` from `app/models/constants.py`. -/
def EventStatus.DRAFT : Nat := 0

/-- `EventStatus.PUBLISHED` from `app/models/constants.py`. -/
def EventStatus.PUBLISHED : Nat := 1

/-- `EventStatus.ARCHIVED` from `app/models/constants.py`. -/
def EventStatus.ARCHIVED : Nat := 2

/-- `EventCategory` row (`event_categories` table). `names` is the JSON
locale-to-name map, modelled as an association list with unique keys. -/
structure EventCategory where
  id : Nat
  slug : String
  names : List (String × String)
  is_active : Bool
  sort_order : Int
  deriving DecidableEq

/-- `EventTranslation` row (`event_translations` table). -/
structure EventTranslation where
  id : Nat
  event_id : Nat
  locale : String
  title : String
  content : Option String
  location : Option String
  deriving DecidableEq

/-- `EventAttachment` row (`event_attachments` table). `title` is a nullable
column (`Optional[str]`). -/
structure EventAttachment where
  id : Nat
  event_id : Nat
  type : String
  path : String
  title : Option String
  sort_order : Int
  deriving DecidableEq

/-- `Event` row (`events` table) together with its eagerly loaded
relationships (`category`, `translations`, `attachments`), as the service
layer sees it. Datetimes are `Option Int` timestamps. -/
structure Event where
  id : Nat
  category_id : Nat
  status : Nat
  starts_at : Option Int
  ends_at : Option Int
  published_at : Option Int
  organizer_info : Option (List (String × String))
  is_target : Bool
  is_featured : Bool
  created_at : Option Int
  updated_at : Option Int
  deleted_at : Option Int
  category : EventCategory
  translations : List EventTranslation
  attachments : List EventAttachment
  deriving DecidableEq

/-- `CategoryPublic` DTO from `app/schemas/event_schema.py`. -/
structure CategoryPublic where
  slug : String
  name : String
  deriving DecidableEq

/-- `AttachmentPublic` DTO from `app/schemas/event_schema.py`; note `title`
is a non-optional `str` there. -/
structure AttachmentPublic where
  type : String
  title : String
  path : String
  deriving DecidableEq

/-- `EventListView` DTO from `app/schemas/event_schema.py`. -/
structure EventListView where
  id : Nat
  slug : String
  title : String
  category : CategoryPublic
  published_at : Option Int
  organizer_info : Option (List (String × String))
  deriving DecidableEq

/-- `EventDetailView` DTO (inherits `EventListView`, adds content, location
and attachments); the inheritance is flattened here. -/
structure EventDetailView where
  id : Nat
  slug : String
  title : String
  category : CategoryPublic
  published_at : Option Int
  organizer_info : Option (List (String × String))
  content : Option String
  location : Option String
  attachments : List AttachmentPublic
  deriving DecidableEq

/-! ## Repository layer (`app/repositories/event_repository.py`) -/

/-- The two `WHERE` clauses shared by both queries:
`deleted_at == None` and `status == EventStatus.PUBLISHED`. -/
def publishedFilter (e : Event) : Bool :=
  e.deleted_at == none && e.status == EventStatus.PUBLISHED

/-- Comparison used for `ORDER BY published_at DESC`: an event may precede
another iff its `published_at` is greater or equal; `NULL` values sort last
(MySQL `DESC` semantics), made explicit here. -/
def publishedLe (a b : Event) : Bool :=
  match a.published_at, b.published_at with
  | some x, some y => decide (y ≤ x)
  | some _, none => true
  | none, some _ => false
  | none, none => true

/-- Comparison realising the relationship-level
`order_by EventAttachment.sort_order` (ascending) declared on
`Event.attachments` in `app/models/event_model.py`. -/
def attachLe (a b : EventAttachment) : Bool :=
  decide (a.sort_order ≤ b.sort_order)

/-- Insertion of one element into an already sorted list, keeping it before
the first element it may precede. Building block of the sort that models the
SQL `ORDER BY`. -/
def insertLe {α : Type} (le : α → α → Bool) (x : α) : List α → List α
  | [] => [x]
  | y :: ys => if le x y then x :: y :: ys else y :: insertLe le x ys

/-- Stable insertion sort modelling the SQL `ORDER BY` clauses of the two
queries (structurally recursive so that concrete instances evaluate). -/
def sortLe {α : Type} (le : α → α → Bool) : List α → List α
  | [] => []
  | x :: xs => insertLe le x (sortLe le xs)

/-- Loading an `Event` from the store materialises its `attachments`
relationship in ascending `sort_order` (the relationship's `order_by`). -/
def loadEvent (e : Event) : Event :=
  ⟨e.id, e.category_id, e.status, e.starts_at, e.ends_at, e.published_at,
   e.organizer_info, e.is_target, e.is_featured, e.created_at, e.updated_at,
   e.deleted_at, e.category, e.translations,
   sortLe attachLe e.attachments⟩

/-- The qualifying sequence of `EventRepository.get_list` before paging:
`SELECT ... WHERE deleted_at IS NULL AND status = PUBLISHED
ORDER BY published_at DESC` with relationships loaded. -/
def publishedOrdered (db : List Event) : List Event :=
  sortLe publishedLe ((db.filter publishedFilter).map loadEvent)

/-- `EventRepository.get_list(skip, limit)`: the qualifying sequence with
`OFFSET skip LIMIT limit`. -/
def get_list (db : List Event) (skip limit : Nat) : List Event :=
  ((publishedOrdered db).drop skip).take limit

/-- `EventRepository.get_by_id(event_id)`: same filters plus the id match,
`.first()` of the result, with relationships loaded. -/
def get_by_id (db : List Event) (event_id : Nat) : Option Event :=
  ((db.filter (fun e => e.id == event_id && publishedFilter e)).head?).map loadEvent

/-! ## Service layer (`app/services/event_service.py`) -/

/-- `EventService._get_translation`: exact locale match via `next(...)`,
then the `zh-TW` fallback, then `event.translations[0]`; `None` when the
event has no translations. -/
def get_translation (e : Event) (locale : String) : Option EventTranslation :=
  match e.translations.find? (fun t => t.locale == locale) with
  | some t => some t
  | none =>
    match e.translations with
    | [] => none
    | t0 :: _ =>
      match e.translations.find? (fun t => t.locale == "zh-TW") with
      | some t => some t
      | none => some t0

/-- Python's `opt or fallback` on an `Optional[str]`: a `None` or empty
string is falsy and falls through to the fallback. -/
def pyStrOr (v : Option String) (fallback : String) : String :=
  match v with
  | some s => if s = "" then fallback else s
  | none => fallback

/-- `EventService._get_json_text(data_dict, locale, default)`:
`if not data_dict: return default` then
`data_dict.get(locale) or data_dict.get("zh-TW") or default`. -/
def get_json_text (data_dict : List (String × String)) (locale : String)
    (dflt : String) : String :=
  if data_dict.isEmpty then dflt
  else pyStrOr (data_dict.lookup locale) (pyStrOr (data_dict.lookup "zh-TW") dflt)

/-- `EventService._transform_to_list_view`. -/
def transform_to_list_view (e : Event) (locale : String) : EventListView :=
  let trans := get_translation e locale
  let title := match trans with
    | some t => t.title
    | none => "No Translation"
  let cat_name := get_json_text e.category.names locale "No Category"
  ⟨e.id, e.category.slug ++ "-" ++ toString e.id, title,
   ⟨e.category.slug, cat_name⟩, e.published_at, e.organizer_info⟩

/-- Construction of one `AttachmentPublic(type=att.type, title=att.title,
path=att.path)`: pydantic rejects a `None` title for the non-optional `str`
field, so the construction is fallible. -/
def transform_attachment (att : EventAttachment) : Option AttachmentPublic :=
  match att.title with
  | some t => some ⟨att.type, t, att.path⟩
  | none => none

/-- The attachment list comprehension in `_transform_to_detail_view`:
builds the display list in order, failing (pydantic `ValidationError`) as
soon as one attachment has a `None` title. -/
def transform_attachments : List EventAttachment → Option (List AttachmentPublic)
  | [] => some []
  | att :: rest =>
    match transform_attachment att, transform_attachments rest with
    | some dto, some dtos => some (dto :: dtos)
    | _, _ => none

/-- `EventService._transform_to_detail_view`: the list view's fields plus
`content`/`location` from the resolved translation and the mapped
attachment list; `none` models the pydantic `ValidationError` raised on a
`None` attachment title. -/
def transform_to_detail_view (e : Event) (locale : String) :
    Option EventDetailView :=
  let base := transform_to_list_view e locale
  let trans := get_translation e locale
  match transform_attachments e.attachments with
  | none => none
  | some attachment_dtos =>
    some ⟨base.id, base.slug, base.title, base.category, base.published_at,
      base.organizer_info,
      trans.bind (fun t => t.content),
      trans.bind (fun t => t.location),
      attachment_dtos⟩

/-- Outcomes of `EventService.get_event_detail`: the explicit
`HTTPException(status_code, detail)` or an escaping pydantic
`ValidationError`. -/
inductive ServiceError where
  | http (status_code : Nat) (detail : String)
  | validation
  deriving DecidableEq

/-- `EventService.get_event_detail`: `404 "Event not found"` when the
repository returns nothing, otherwise the detail transformation. -/
def get_event_detail (db : List Event) (event_id : Nat) (locale : String) :
    Except ServiceError EventDetailView :=
  match get_by_id db event_id with
  | none => Except.error (ServiceError.http 404 "Event not found")
  | some e =>
    match transform_to_detail_view e locale with
    | some v => Except.ok v
    | none => Except.error ServiceError.validation

/-- `EventService.get_events(locale, page, page_size)`:
`skip = (page - 1) * page_size`, delegate to the repository, map each row
to its list view. -/
def get_events (db : List Event) (locale : String) (page : Nat)
    (page_size : Nat) : List EventListView :=
  let skip := (page - 1) * page_size
  (get_list db skip page_size).map (fun e => transform_to_list_view e locale)

/-- The explicit null policy for the descending `published_at` order:
non-null timestamps descend, nulls sort after every non-null value. -/
def publishedDescOrder : Option Int → Option Int → Prop
  | some x, some y => y ≤ x
  | some _, none => True
  | none, some _ => False
  | none, none => True

/-! ## Concrete fixtures used by witnesses and examples -/

/-- A category with a `zh-TW` and an `en-US` name. -/
def exCategory : EventCategory :=
  ⟨1, "talk", [("zh-TW", "講座"), ("en-US", "Talk")], true, 0⟩

/-- An `en-US` translation (first in stored order on `exEventC1`). -/
def exTransEn : EventTranslation :=
  ⟨11, 3, "en-US", "Hello", some "content-en", some "Taipei"⟩

/-- A `fr-FR` translation (second in stored order on `exEventC1`). -/
def exTransFr : EventTranslation :=
  ⟨12, 3, "fr-FR", "Bonjour", none, some ""⟩

/-- Published event whose translations are in locales `en-US` and `fr-FR`
only, exercising the double fallback of locale resolution. -/
def exEventC1 : Event :=
  ⟨3, 1, EventStatus.PUBLISHED, none, none, some 100, none, false, false,
   none, none, none, exCategory, [exTransEn, exTransFr], []⟩

/-- An attachment whose nullable `title` column is `NULL`. -/
def exNullTitleAtt : EventAttachment :=
  ⟨21, 7, "image", "/uploads/a.png", none, 0⟩

/-- Published, not soft-deleted event carrying the `NULL`-title
attachment. -/
def exEventBadAtt : Event :=
  ⟨7, 1, EventStatus.PUBLISHED, none, none, some 50, none, false, false,
   none, none, none, exCategory, [], [exNullTitleAtt]⟩

/-- Table holding only `exEventBadAtt`. -/
def exDbBadAtt : List Event := [exEventBadAtt]

/-- Attachment with `sort_order = 2` and a present title. -/
def exAttB : EventAttachment :=
  ⟨31, 8, "file", "/uploads/b.pdf", some "B", 2⟩

/-- Attachment with `sort_order = 1`, stored after `exAttB`. -/
def exAttA : EventAttachment :=
  ⟨32, 8, "link", "https://example.org", some "A", 1⟩

/-- Published event with two attachments stored out of `sort_order`. -/
def exEventGood : Event :=
  ⟨8, 1, EventStatus.PUBLISHED, none, none, some 60, none, false, false,
   none, none, none, exCategory, [⟨13, 8, "zh-TW", "標題", some "內容", some "台北"⟩],
   [exAttB, exAttA]⟩

/-- Table holding only `exEventGood`. -/
def exDbGood : List Event := [exEventGood]

/-- Soft-deleted event (`deleted_at` non-null). -/
def exEventDeleted : Event :=
  ⟨5, 1, EventStatus.PUBLISHED, none, none, some 70, none, false, false,
   none, none, some 999, exCategory, [], []⟩

/-- Published event with no translations and no attachments. -/
def exEventNoTrans : Event :=
  ⟨9, 1, EventStatus.PUBLISHED, none, none, some 10, none, false, false,
   none, none, none, exCategory, [], []⟩

/-! ## Shared helper lemmas -/

theorem publishedFilter_iff (e : Event) :
    publishedFilter e = true ↔
      e.deleted_at = none ∧ e.status = EventStatus.PUBLISHED := by
  simp [publishedFilter]

theorem loadEvent_deleted_at (e : Event) :
    (loadEvent e).deleted_at = e.deleted_at := rfl

theorem loadEvent_status (e : Event) : (loadEvent e).status = e.status := rfl

theorem loadEvent_attachments (e : Event) :
    (loadEvent e).attachments = sortLe attachLe e.attachments := rfl

theorem publishedLe_trans (a b c : Event) :
    publishedLe a b = true → publishedLe b c = true →
    publishedLe a c = true := by
  unfold publishedLe
  rcases a.published_at with _ | x <;> rcases b.published_at with _ | y <;>
    rcases c.published_at with _ | z <;> simp <;> omega

theorem publishedLe_total (a b : Event) :
    (publishedLe a b || publishedLe b a) = true := by
  unfold publishedLe
  rcases a.published_at with _ | x <;> rcases b.published_at with _ | y <;>
    simp <;> omega

theorem attachLe_trans (a b c : EventAttachment) :
    attachLe a b = true → attachLe b c = true → attachLe a c = true := by
  unfold attachLe
  simp
  omega

theorem attachLe_total (a b : EventAttachment) :
    (attachLe a b || attachLe b a) = true := by
  unfold attachLe
  simp
  omega

theorem mem_insertLe {α : Type} (le : α → α → Bool) (x a : α) :
    ∀ l : List α, a ∈ insertLe le x l ↔ a = x ∨ a ∈ l := by
  intro l
  induction l with
  | nil => simp [insertLe]
  | cons y ys ih =>
    unfold insertLe
    cases h : le x y with
    | true => simp [h]
    | false =>
      rw [if_neg (by simp [h])]
      rw [List.mem_cons, List.mem_cons, ih]
      tauto

theorem mem_sortLe {α : Type} (le : α → α → Bool) (a : α) :
    ∀ l : List α, a ∈ sortLe le l ↔ a ∈ l := by
  intro l
  induction l with
  | nil => simp [sortLe]
  | cons x xs ih =>
    unfold sortLe
    rw [mem_insertLe]
    simp [ih]

theorem pairwise_insertLe {α : Type} (le : α → α → Bool)
    (total : ∀ a b, (le a b || le b a) = true)
    (trans : ∀ a b c, le a b = true → le b c = true → le a c = true)
    (x : α) :
    ∀ l : List α, l.Pairwise (fun a b => le a b = true) →
      (insertLe le x l).Pairwise (fun a b => le a b = true) := by
  intro l
  induction l with
  | nil =>
    intro _
    unfold insertLe
    exact List.Pairwise.cons (by intro b hb; simp at hb) List.Pairwise.nil
  | cons y ys ih =>
    intro hp
    rw [List.pairwise_cons] at hp
    obtain ⟨hy, hys⟩ := hp
    unfold insertLe
    cases h : le x y with
    | true =>
      rw [if_pos (by simp [h])]
      rw [List.pairwise_cons]
      refine ⟨?_, List.pairwise_cons.mpr ⟨hy, hys⟩⟩
      intro b hb
      rcases List.mem_cons.mp hb with rfl | hb2
      · exact h
      · exact trans x y b h (hy b hb2)
    | false =>
      rw [if_neg (by simp [h])]
      rw [List.pairwise_cons]
      refine ⟨?_, ih hys⟩
      intro b hb
      rcases (mem_insertLe le x b ys).mp hb with rfl | hb2
      · have htot := total b y
        rw [h] at htot
        simpa using htot
      · exact hy b hb2

theorem pairwise_sortLe {α : Type} (le : α → α → Bool)
    (total : ∀ a b, (le a b || le b a) = true)
    (trans : ∀ a b c, le a b = true → le b c = true → le a c = true) :
    ∀ l : List α, (sortLe le l).Pairwise (fun a b => le a b = true) := by
  intro l
  induction l with
  | nil => simp [sortLe]
  | cons x xs ih => exact pairwise_insertLe le total trans x _ ih

theorem publishedLe_iff (a b : Event) :
    publishedLe a b = true ↔
      publishedDescOrder a.published_at b.published_at := by
  unfold publishedLe publishedDescOrder
  rcases a.published_at with _ | x <;> rcases b.published_at with _ | y <;> simp

/-- Every element of `get_list` is a loaded image of a row passing the
filters. -/
theorem mem_get_list_elim {db : List Event} {skip limit : Nat} {e : Event}
    (h : e ∈ get_list db skip limit) :
    ∃ e0 ∈ db, publishedFilter e0 = true ∧ e = loadEvent e0 := by
  have h1 : e ∈ (publishedOrdered db).drop skip := List.take_subset _ _ h
  have h2 : e ∈ publishedOrdered db := List.drop_subset _ _ h1
  unfold publishedOrdered at h2
  rw [mem_sortLe] at h2
  obtain ⟨e0, he0, heq⟩ := List.mem_map.mp h2
  obtain ⟨hmem, hfil⟩ := List.mem_filter.mp he0
  exact ⟨e0, hmem, hfil, heq.symm⟩

/-- A successful `get_by_id` is a loaded image of a row passing the
filters, with the requested id. -/
theorem get_by_id_some_elim {db : List Event} {eid : Nat} {e : Event}
    (h : get_by_id db eid = some e) :
    ∃ e0 ∈ db, e0.id = eid ∧ publishedFilter e0 = true ∧ e = loadEvent e0 := by
  unfold get_by_id at h
  rcases hh : (db.filter (fun e => e.id == eid && publishedFilter e)).head? with
    _ | e0
  · rw [hh] at h
    simp at h
  · rw [hh] at h
    simp at h
    have hmem : e0 ∈ db.filter (fun e => e.id == eid && publishedFilter e) :=
      List.mem_of_mem_head? (by rw [hh]; rfl)
    obtain ⟨hdb, hp⟩ := List.mem_filter.mp hmem
    simp only [Bool.and_eq_true, beq_iff_eq] at hp
    exact ⟨e0, hdb, hp.1, hp.2, h.symm⟩

/-- If every row with the requested id is filtered out, `get_by_id`
returns nothing. -/
theorem get_by_id_none_of_filtered {db : List Event} {eid : Nat}
    (h : ∀ e ∈ db, e.id = eid →
      e.deleted_at ≠ none ∨ e.status ≠ EventStatus.PUBLISHED) :
    get_by_id db eid = none := by
  unfold get_by_id
  have hnil : db.filter (fun e => e.id == eid && publishedFilter e) = [] := by
    rw [List.filter_eq_nil_iff]
    intro e he
    simp only [Bool.and_eq_true, beq_iff_eq, publishedFilter, not_and]
    intro hid
    rcases h e he hid with hd | hs
    · simp [hd]
    · simp [hs]
  rw [hnil]
  rfl

/-- A successful attachment transformation is the order-preserving map to
display forms, with every stored title present. -/
theorem transform_attachments_eq_map :
    ∀ (l : List EventAttachment) (ys : List AttachmentPublic),
      transform_attachments l = some ys →
      ys = l.map (fun att => ⟨att.type, att.title.getD "", att.path⟩)
  | [], ys => by
    intro h
    simp [transform_attachments] at h
    simp [h.symm]
  | att :: rest, ys => by
    intro h
    unfold transform_attachments at h
    rcases ha : transform_attachment att with _ | dto
    · rw [ha] at h
      exact absurd h (by simp)
    · rcases hr : transform_attachments rest with _ | dtos
      · rw [ha, hr] at h
        exact absurd h (by simp)
      · rw [ha, hr] at h
        simp at h
        have hrest := transform_attachments_eq_map rest dtos hr
        rcases ht : att.title with _ | t
        · unfold transform_attachment at ha
          rw [ht] at ha
          exact absurd ha (by simp)
        · unfold transform_attachment at ha
          rw [ht] at ha
          simp at ha
          subst h
          simp [hrest.symm, ha.symm, ht]

/-- The attachment transformation fails exactly when some stored title is
`NULL`. -/
theorem transform_attachments_eq_none_iff :
    ∀ l : List EventAttachment,
      transform_attachments l = none ↔ ∃ att ∈ l, att.title = none
  | [] => by simp [transform_attachments]
  | att :: rest => by
    unfold transform_attachments
    rcases ha : transform_attachment att with _ | dto
    · constructor
      · intro _
        refine ⟨att, by simp, ?_⟩
        unfold transform_attachment at ha
        rcases ht : att.title with _ | t
        · rfl
        · rw [ht] at ha
          exact absurd ha (by simp)
      · intro _
        rfl
    · rcases hr : transform_attachments rest with _ | dtos
      · constructor
        · intro _
          obtain ⟨a, hma, hta⟩ := (transform_attachments_eq_none_iff rest).mp hr
          exact ⟨a, by simp [hma], hta⟩
        · intro _
          rfl
      · simp only []
        constructor
        · intro h
          exact absurd h (by simp)
        · rintro ⟨a, hma, hta⟩
          rcases List.mem_cons.mp hma with rfl | hma2
          · unfold transform_attachment at ha
            rw [hta] at ha
            exact absurd ha (by simp)
          · have : transform_attachments rest = none :=
              (transform_attachments_eq_none_iff rest).mpr ⟨a, hma2, hta⟩
            rw [this] at hr
            exact absurd hr (by simp)

/-- When locale resolution fails on an event, its translation list is
empty. -/
theorem get_translation_none_loc (e : Event) (loc : String)
    (h : e.translations = []) : get_translation e loc = none := by
  unfold get_translation
  rw [h]
  simp

/-- When all attachment titles are present, the detail transformation
produces a view. -/
theorem detail_view_isSome (e : Event) (loc : String)
    (h : ∀ att ∈ e.attachments, att.title ≠ none) :
    ∃ v, transform_to_detail_view e loc = some v := by
  have hne : transform_attachments e.attachments ≠ none := by
    intro hn
    obtain ⟨att, hm, ht⟩ := (transform_attachments_eq_none_iff e.attachments).mp hn
    exact h att hm ht
  obtain ⟨atts, hatts⟩ := Option.ne_none_iff_exists'.mp hne
  have hv : (transform_to_detail_view e loc).isSome = true := by
    simp [transform_to_detail_view, hatts]
  exact Option.isSome_iff_exists.mp hv

/-! ## Claim theorems -/

/-- C1: translation resolution returns the exact-locale match when one
exists; otherwise, when the event has translations, the `zh-TW` one when
present, else the first in stored order; an event without translations
resolves to nothing. -/
theorem c1_translation_resolution (e : Event) (loc : String) :
    (e.translations = [] → get_translation e loc = none)
  ∧ ((∃ t ∈ e.translations, t.locale = loc) →
        ∃ t, get_translation e loc = some t ∧ t.locale = loc ∧
          t ∈ e.translations)
  ∧ ((∀ t ∈ e.translations, t.locale ≠ loc) →
        (∃ t ∈ e.translations, t.locale = "zh-TW") →
        ∃ t, get_translation e loc = some t ∧ t.locale = "zh-TW" ∧
          t ∈ e.translations)
  ∧ ((∀ t ∈ e.translations, t.locale ≠ loc) →
        (∀ t ∈ e.translations, t.locale ≠ "zh-TW") →
        get_translation e loc = e.translations.head?) := by
  refine ⟨fun h => get_translation_none_loc e loc h, ?_, ?_, ?_⟩
  · rintro ⟨t, ht, hloc⟩
    have hsome : (e.translations.find? (fun t => t.locale == loc)).isSome := by
      rw [List.find?_isSome]
      exact ⟨t, ht, by simp [hloc]⟩
    rcases hf : e.translations.find? (fun t => t.locale == loc) with _ | t2
    · rw [hf] at hsome
      simp at hsome
    · have hval : get_translation e loc = some t2 := by
        unfold get_translation
        rw [hf]
      have hl : t2.locale = loc := by
        have := List.find?_some hf
        simpa using this
      exact ⟨t2, hval, hl, List.mem_of_find?_eq_some hf⟩
  · intro hno hzh
    have hfn : e.translations.find? (fun t => t.locale == loc) = none := by
      rw [List.find?_eq_none]
      intro x hx
      simp [hno x hx]
    have hsome : (e.translations.find? (fun t => t.locale == "zh-TW")).isSome := by
      rw [List.find?_isSome]
      obtain ⟨t, ht, hl⟩ := hzh
      exact ⟨t, ht, by simp [hl]⟩
    rcases hf : e.translations.find? (fun t => t.locale == "zh-TW") with _ | t2
    · rw [hf] at hsome
      simp at hsome
    · rcases he : e.translations with _ | ⟨t0, rest⟩
      · obtain ⟨t, ht, _⟩ := hzh
        rw [he] at ht
        simp at ht
      · rw [he] at hf
        have hval : get_translation e loc = some t2 := by
          unfold get_translation
          rw [hfn, he, hf]
        have hl : t2.locale = "zh-TW" := by
          have := List.find?_some hf
          simpa using this
        exact ⟨t2, hval, hl, List.mem_of_find?_eq_some hf⟩
  · intro hno hnzh
    have hfn : e.translations.find? (fun t => t.locale == loc) = none := by
      rw [List.find?_eq_none]
      intro x hx
      simp [hno x hx]
    have hfz : e.translations.find? (fun t => t.locale == "zh-TW") = none := by
      rw [List.find?_eq_none]
      intro x hx
      simp [hnzh x hx]
    rcases he : e.translations with _ | ⟨t0, rest⟩
    · unfold get_translation
      rw [he]
      simp
    · unfold get_translation
      rw [hfn, he]
      rw [he] at hfz
      rw [hfz]
      rfl

/-- C1 witness: requesting locale `zh-TW` against an event whose
translations are in locales `en-US` and `fr-FR` returns the `en-US`
translation, the first in stored order (the double fallback). -/
theorem c1_witness : get_translation exEventC1 "zh-TW" = some exTransEn := by
  have h := (c1_translation_resolution exEventC1 "zh-TW").2.2.2
  rw [h (by decide) (by decide)]
  rfl

/-- C2: soft-deleted or non-published events never appear in list results
and are never the detail lookup's result; every event either read path
returns has `deleted_at` null and status `PUBLISHED`; and when every row
with the requested id is soft-deleted or unpublished the detail lookup is
absent. -/
theorem c2_visibility (db : List Event) (skip limit eid : Nat) :
    (∀ e ∈ get_list db skip limit,
        e.deleted_at = none ∧ e.status = EventStatus.PUBLISHED)
  ∧ (∀ e, get_by_id db eid = some e →
        e.deleted_at = none ∧ e.status = EventStatus.PUBLISHED)
  ∧ (∀ e, e.deleted_at ≠ none ∨ e.status ≠ EventStatus.PUBLISHED →
        e ∉ get_list db skip limit ∧ get_by_id db eid ≠ some e)
  ∧ ((∀ e ∈ db, e.id = eid →
        e.deleted_at ≠ none ∨ e.status ≠ EventStatus.PUBLISHED) →
        get_by_id db eid = none) := by
  have hlist : ∀ e ∈ get_list db skip limit,
      e.deleted_at = none ∧ e.status = EventStatus.PUBLISHED := by
    intro e he
    obtain ⟨e0, _, hfil, rfl⟩ := mem_get_list_elim he
    rw [loadEvent_deleted_at, loadEvent_status]
    exact (publishedFilter_iff e0).mp hfil
  have hbyid : ∀ e, get_by_id db eid = some e →
      e.deleted_at = none ∧ e.status = EventStatus.PUBLISHED := by
    intro e he
    obtain ⟨e0, _, _, hfil, rfl⟩ := get_by_id_some_elim he
    rw [loadEvent_deleted_at, loadEvent_status]
    exact (publishedFilter_iff e0).mp hfil
  refine ⟨hlist, hbyid, ?_, fun h => get_by_id_none_of_filtered h⟩
  intro e hbad
  constructor
  · intro hmem
    rcases hbad with h | h
    · exact h (hlist e hmem).1
    · exact h (hlist e hmem).2
  · intro hsome
    rcases hbad with h | h
    · exact h (hbyid e hsome).1
    · exact h (hbyid e hsome).2

/-- C2 witness: a soft-deleted event is not listed and its id resolves to
nothing. -/
theorem c2_witness :
    exEventDeleted.deleted_at ≠ none ∧
    exEventDeleted ∉ get_list [exEventDeleted] 0 10 ∧
    get_by_id [exEventDeleted] 5 = none :=
  ⟨by decide,
   ((c2_visibility [exEventDeleted] 0 10 5).2.2.1 exEventDeleted
      (Or.inl (by decide))).1,
   (c2_visibility [exEventDeleted] 0 10 5).2.2.2 (by decide)⟩

/-- C3: localized text lookup returns the requested-locale value when
present and non-empty (falsy values count as missing), else the `zh-TW`
value under the same rule, else the default; with the two concrete
examples from the specification. -/
theorem c3_localized_text (d : List (String × String)) (loc dflt : String) :
    (∀ v, d.lookup loc = some v → v ≠ "" → get_json_text d loc dflt = v)
  ∧ ((d.lookup loc = none ∨ d.lookup loc = some "") →
       ∀ v, d.lookup "zh-TW" = some v → v ≠ "" → get_json_text d loc dflt = v)
  ∧ ((d.lookup loc = none ∨ d.lookup loc = some "") →
       (d.lookup "zh-TW" = none ∨ d.lookup "zh-TW" = some "") →
       get_json_text d loc dflt = dflt)
  ∧ get_json_text [("en-US", "Hi")] "fr-FR" "Unknown" = "Unknown"
  ∧ get_json_text [("zh-TW", "嗨")] "fr-FR" "Unknown" = "嗨" := by
  have hne : ∀ v : String, d.lookup loc = some v → d.isEmpty = false := by
    intro v hv
    rcases d with _ | ⟨p, rest⟩
    · simp [List.lookup] at hv
    · rfl
  have hnez : ∀ v : String, d.lookup "zh-TW" = some v → d.isEmpty = false := by
    intro v hv
    rcases d with _ | ⟨p, rest⟩
    · simp [List.lookup] at hv
    · rfl
  refine ⟨?_, ?_, ?_, by decide, by decide⟩
  · intro v hv hvne
    unfold get_json_text
    rw [hne v hv, hv]
    simp [pyStrOr, hvne]
  · intro hloc v hv hvne
    unfold get_json_text
    rw [hnez v hv, hv]
    rcases hloc with h | h
    · rw [h]
      simp [pyStrOr, hvne]
    · rw [h]
      simp [pyStrOr, hvne]
  · intro hloc hzh
    rcases hd : d.isEmpty with _ | _
    · unfold get_json_text
      rw [hd]
      rcases hloc with h | h <;> rcases hzh with h2 | h2 <;>
        rw [h, h2] <;> simp [pyStrOr]
    · unfold get_json_text
      rw [hd]
      simp

/-- C3 witness: a present non-empty value at the requested locale is
returned as-is. -/
theorem c3_witness :
    get_json_text [("en-US", "Hi")] "en-US" "Unknown" = "Hi" :=
  (c3_localized_text [("en-US", "Hi")] "en-US" "Unknown").1 "Hi"
    (by decide) (by decide)

/-- C4: the list operation pages the qualifying published-ordered sequence
with `skip = (page-1)*size` and `limit = size`; page 1 of size 10 maps the
first 10 qualifying rows and page 2 of size 10 maps rows 11-20. -/
theorem c4_pagination (db : List Event) (loc : String) (p s : Nat)
    (hp : 1 ≤ p) (hs1 : 1 ≤ s) (hs2 : s ≤ 100) :
    get_events db loc p s =
      (((publishedOrdered db).drop ((p - 1) * s)).take s).map
        (fun e => transform_to_list_view e loc)
  ∧ get_events db loc 1 10 =
      ((publishedOrdered db).take 10).map
        (fun e => transform_to_list_view e loc)
  ∧ get_events db loc 2 10 =
      (((publishedOrdered db).drop 10).take 10).map
        (fun e => transform_to_list_view e loc) := by
  refine ⟨rfl, ?_, ?_⟩
  · simp [get_events, get_list]
  · simp [get_events, get_list]

/-- C4 witness: pagination formula applied at page 2 of size 10 on a
concrete table. -/
theorem c4_witness :
    1 ≤ 2 ∧ 1 ≤ 10 ∧ 10 ≤ 100 ∧
    get_events exDbGood "zh-TW" 2 10 =
      (((publishedOrdered exDbGood).drop 10).take 10).map
        (fun e => transform_to_list_view e "zh-TW") :=
  ⟨by decide, by decide, by decide,
   (c4_pagination exDbGood "zh-TW" 2 10 (by decide) (by decide)
      (by decide)).2.2⟩

/-- C5: list results are pairwise (hence adjacently) ordered by
`published_at` descending, null timestamps explicitly ordered after all
non-null ones. -/
theorem c5_descending (db : List Event) (skip limit : Nat) :
    (get_list db skip limit).Pairwise
      (fun a b => publishedDescOrder a.published_at b.published_at)
  ∧ (get_list db skip limit).Chain'
      (fun a b => publishedDescOrder a.published_at b.published_at) := by
  have hsorted : (publishedOrdered db).Pairwise
      (fun a b => publishedLe a b = true) :=
    pairwise_sortLe publishedLe publishedLe_total publishedLe_trans _
  have hsub : List.Sublist (((publishedOrdered db).drop skip).take limit)
      (publishedOrdered db) :=
    (List.take_sublist _ _).trans (List.drop_sublist _ _)
  have hp : (get_list db skip limit).Pairwise
      (fun a b => publishedLe a b = true) :=
    List.Pairwise.sublist hsub hsorted
  have hp2 := hp.imp (fun hab => (publishedLe_iff _ _).mp hab)
  exact ⟨hp2, hp2.chain'⟩

/-- C5 witness: the descending order on a concrete two-event table. -/
theorem c5_witness :
    (get_list (exEventDeleted :: exDbGood) 0 10).Chain'
      (fun a b => publishedDescOrder a.published_at b.published_at) :=
  (c5_descending (exEventDeleted :: exDbGood) 0 10).2

/-- C6 counterexample: `exEventBadAtt` passes both filters — the detail
lookup finds it — yet the detail operation does not return a detail view:
it fails with a validation error (a `None` attachment title rejected by
the non-optional DTO field), refuting "for every event id whose event
passes the filters, the detail operation returns the detail view and does
not raise". -/
theorem c6_counterexample :
    (get_by_id exDbBadAtt 7).isSome = true ∧
    get_event_detail exDbBadAtt 7 "zh-TW" =
      Except.error ServiceError.validation :=
  ⟨rfl, rfl⟩

/-- C6 amended: ids whose rows are all missing, soft-deleted or
unpublished yield exactly the 404 error with message "Event not found";
when the lookup succeeds and every attachment of the found event has a
non-null title, the detail operation returns a detail view without
raising. -/
theorem c6_amended (db : List Event) (eid : Nat) (loc : String) :
    ((∀ e ∈ db, e.id = eid →
        e.deleted_at ≠ none ∨ e.status ≠ EventStatus.PUBLISHED) →
      get_event_detail db eid loc =
        Except.error (ServiceError.http 404 "Event not found"))
  ∧ (∀ e, get_by_id db eid = some e →
        (∀ att ∈ e.attachments, att.title ≠ none) →
        ∃ v, get_event_detail db eid loc = Except.ok v) := by
  constructor
  · intro h
    unfold get_event_detail
    rw [get_by_id_none_of_filtered h]
  · intro e he h
    obtain ⟨v, hv⟩ := detail_view_isSome e loc h
    refine ⟨v, ?_⟩
    simp [get_event_detail, he, hv]

/-- C6 witness: a table whose only row with the requested id is
soft-deleted yields the 404 with the fixed message. -/
theorem c6_witness :
    get_event_detail [exEventDeleted] 5 "zh-TW" =
      Except.error (ServiceError.http 404 "Event not found") :=
  (c6_amended [exEventDeleted] 5 "zh-TW").1 (by decide)

/-- C7: an event with an empty translation list gets the literal title
"No Translation" in its list view, and any detail view produced for it
has content and location both absent. -/
theorem c7_no_translation (e : Event) (loc : String)
    (h : e.translations = []) :
    (transform_to_list_view e loc).title = "No Translation"
  ∧ (∀ v, transform_to_detail_view e loc = some v →
        v.content = none ∧ v.location = none) := by
  have hg : get_translation e loc = none := get_translation_none_loc e loc h
  constructor
  · simp [transform_to_list_view, hg]
  · intro v hv
    rcases ha : transform_attachments e.attachments with _ | atts
    · simp [transform_to_detail_view, ha] at hv
    · simp [transform_to_detail_view, ha, hg] at hv
      rw [← hv]
      exact ⟨rfl, rfl⟩

/-- C7 witness: concrete event with no translations. -/
theorem c7_witness :
    (transform_to_list_view exEventNoTrans "zh-TW").title =
      "No Translation" :=
  (c7_no_translation exEventNoTrans "zh-TW" rfl).1

/-- C8: every produced detail view agrees with the list view of the same
event and locale on id, slug, title, category, published_at and
organizer_info, and both carry the synthetic slug
`category.slug ++ "-" ++ event.id`. -/
theorem c8_detail_extends_list (e : Event) (loc : String) :
    (∀ v, transform_to_detail_view e loc = some v →
        v.id = (transform_to_list_view e loc).id
      ∧ v.slug = (transform_to_list_view e loc).slug
      ∧ v.title = (transform_to_list_view e loc).title
      ∧ v.category = (transform_to_list_view e loc).category
      ∧ v.published_at = (transform_to_list_view e loc).published_at
      ∧ v.organizer_info = (transform_to_list_view e loc).organizer_info)
  ∧ (transform_to_list_view e loc).slug =
      e.category.slug ++ "-" ++ toString e.id
  ∧ (∀ v, transform_to_detail_view e loc = some v →
        v.slug = e.category.slug ++ "-" ++ toString e.id) := by
  have hshared : ∀ v, transform_to_detail_view e loc = some v →
      v.id = (transform_to_list_view e loc).id
    ∧ v.slug = (transform_to_list_view e loc).slug
    ∧ v.title = (transform_to_list_view e loc).title
    ∧ v.category = (transform_to_list_view e loc).category
    ∧ v.published_at = (transform_to_list_view e loc).published_at
    ∧ v.organizer_info = (transform_to_list_view e loc).organizer_info := by
    intro v hv
    rcases ha : transform_attachments e.attachments with _ | atts
    · simp [transform_to_detail_view, ha] at hv
    · simp [transform_to_detail_view, ha] at hv
      rw [← hv]
      exact ⟨rfl, rfl, rfl, rfl, rfl, rfl⟩
  refine ⟨hshared, rfl, ?_⟩
  intro v hv
  exact (hshared v hv).2.1

/-- C8 witness: the slug of a concrete event's list view. -/
theorem c8_witness :
    (transform_to_list_view exEventGood "zh-TW").slug =
      exEventGood.category.slug ++ "-" ++ toString exEventGood.id :=
  (c8_detail_extends_list exEventGood "zh-TW").2.1

/-- C9: attachment lists of events delivered by either repository read are
ordered by `sort_order` ascending, and the detail view maps each
attachment to its display form (type, title, path) preserving the stored
order. -/
theorem c9_attachment_order (db : List Event) (skip limit eid : Nat)
    (loc : String) :
    (∀ e, get_by_id db eid = some e →
        e.attachments.Pairwise (fun a b => a.sort_order ≤ b.sort_order))
  ∧ (∀ e ∈ get_list db skip limit,
        e.attachments.Pairwise (fun a b => a.sort_order ≤ b.sort_order))
  ∧ (∀ e2 v, transform_to_detail_view e2 loc = some v →
        v.attachments = e2.attachments.map
          (fun att => ⟨att.type, att.title.getD "", att.path⟩)) := by
  have hsort : ∀ e0 : Event, (loadEvent e0).attachments.Pairwise
      (fun a b => a.sort_order ≤ b.sort_order) := by
    intro e0
    rw [loadEvent_attachments]
    have h := pairwise_sortLe attachLe attachLe_total attachLe_trans
      e0.attachments
    exact h.imp (fun hab => by simpa [attachLe] using hab)
  refine ⟨?_, ?_, ?_⟩
  · intro e he
    obtain ⟨e0, _, _, _, rfl⟩ := get_by_id_some_elim he
    exact hsort e0
  · intro e he
    obtain ⟨e0, _, _, rfl⟩ := mem_get_list_elim he
    exact hsort e0
  · intro e2 v hv
    rcases ha : transform_attachments e2.attachments with _ | atts
    · simp [transform_to_detail_view, ha] at hv
    · simp [transform_to_detail_view, ha] at hv
      rw [← hv]
      exact transform_attachments_eq_map e2.attachments atts ha

/-- C9 witness: the two out-of-order attachments of `exEventGood` come
back sorted by the lookup. -/
theorem c9_witness :
    List.Pairwise (fun a b => a.sort_order ≤ b.sort_order)
      (loadEvent exEventGood).attachments :=
  (c9_attachment_order exDbGood 0 10 8 "zh-TW").1 (loadEvent exEventGood) rfl

/-- C10: the detail transformation fails (no detail view) for any event
having an attachment with an absent title, succeeds whenever every
attachment title is present, and an absent-title attachment has no
display form. -/
theorem c10_null_title (e : Event) (loc : String) :
    ((∃ att ∈ e.attachments, att.title = none) →
        transform_to_detail_view e loc = none)
  ∧ ((∀ att ∈ e.attachments, att.title ≠ none) →
        ∃ v, transform_to_detail_view e loc = some v)
  ∧ (∀ att : EventAttachment, att.title = none →
        transform_attachment att = none) := by
  refine ⟨?_, detail_view_isSome e loc, ?_⟩
  · intro h
    have hn := (transform_attachments_eq_none_iff e.attachments).mpr h
    unfold transform_to_detail_view
    rw [hn]
  · intro att ht
    unfold transform_attachment
    rw [ht]

/-- C10 witness: the concrete null-title attachment makes detail assembly
fail. -/
theorem c10_witness :
    transform_to_detail_view exEventBadAtt "zh-TW" = none :=
  (c10_null_title exEventBadAtt "zh-TW").1 ⟨exNullTitleAtt, by decide, rfl⟩

end OSABackend
